import Mathlib

/-!
# Verification of the BPMN ↔ test coverage-reconciliation engine

Shallow embedding of the coverage-report generator
(`scripts/generate-bpmn-test-report.mjs`, both the full variant and the
Tasks-only variant) and proofs about its extractor, reference scanner and
reconciler.

The script consumes the output of `fast-xml-parser` (configured with
`ignoreAttributes: false`, `attributeNamePrefix: '@'`,
`removeNSPrefix: false`, and the default `parseAttributeValue: false`, so
attribute values are always strings).  The parsed document is an ordinary
JavaScript value built from strings, arrays and plain objects; `JsVal`
models exactly those shapes.  Object keys are kept in insertion order, as
`Object.entries` enumerates them.
-/

/-- A JavaScript value as produced by the XML parser: a string, an array,
or a plain object with ordered string keys. -/
inductive JsVal where
  | str : String → JsVal
  | arr : List JsVal → JsVal
  | obj : List (String × JsVal) → JsVal

/-- JavaScript truthiness for the values that occur here: every object and
array is truthy, a string is truthy iff it is non-empty. -/
def truthy : JsVal → Bool
  | .str s => s ≠ ""
  | _ => true

/-- Truthiness of a possibly absent value (`undefined` is falsy). -/
def truthyOpt : Option JsVal → Bool
  | some v => truthy v
  | none => false

/-- JavaScript property access `node[k]` on an object's key/value list:
the value of the (unique) key `k`, if present. -/
def lookupJs (kvs : List (String × JsVal)) (k : String) : Option JsVal :=
  (kvs.find? (fun p => p.1 == k)).map (·.2)

/-- The JavaScript expression `a || b` where `a` may be absent and the
result feeds a truthiness test: first operand if truthy, else `b`. -/
def jsOr (a b : Option JsVal) : Option JsVal :=
  match a with
  | some v => if truthy v then some v else b
  | none => b

/-- The JavaScript expression `a || b` returning a value (`b` is the
default used when `a` is absent or falsy). -/
def jsOrVal (a : Option JsVal) (b : JsVal) : JsVal :=
  match a with
  | some v => if truthy v then v else b
  | none => b

/-- Whitespace as removed by JavaScript `String.prototype.trim` (the ASCII
part, which is all that occurs in the inputs considered here). -/
def isJsSpace (c : Char) : Bool :=
  c = ' ' ∨ c = '\t' ∨ c = '\n' ∨ c = '\r' ∨ c = '\x0b' ∨ c = '\x0c'

/-- Trimming on a character list: drop whitespace from both ends. -/
def trimChars (cs : List Char) : List Char :=
  ((cs.dropWhile isJsSpace).reverse.dropWhile isJsSpace).reverse

/-- JavaScript trimming, `s.trim()`. -/
def jsTrim (s : String) : String := .mk (trimChars s.data)

/-- JavaScript `String.prototype.split` against a single-character class
such as `/[,|]/`: the text is cut at every separator character and empty
segments are kept. -/
def splitChars (p : Char → Bool) : List Char → List (List Char)
  | [] => [[]]
  | c :: rest =>
    if p c then [] :: splitChars p rest
    else
      match splitChars p rest with
      | [] => [[c]]
      | seg :: segs => (c :: seg) :: segs

/-- Splitting, `s.split(/class/)`, as a list of strings. -/
def jsSplitOn (s : String) (p : Char → Bool) : List String :=
  (splitChars p s.data).map .mk

/-- Namespace stripping `kk.split(':').pop()`: the segment after the last colon (namespace
prefix removal for extension keys). -/
def lastColonSeg (s : String) : String :=
  (jsSplitOn s (fun c => c = ':')).getLastD ""

/-- The first string-typed value, used by the `str` normalizer below. -/
def getStr? : JsVal → Option String
  | .str s => some s
  | _ => none

/-- The `str` helper of `collectBpmnElements`: a plain string is trimmed;
for an object (or array — `typeof` does not distinguish them) the first
string-typed value among `Object.values` is taken, defaulting to `""`. -/
def strOf : JsVal → String
  | .str s => jsTrim s
  | .obj kvs => jsTrim (((kvs.map (·.2)).findSome? getStr?).getD "")
  | .arr xs => jsTrim ((xs.findSome? getStr?).getD "")

/-- The `ExtensionBag` (`el.meta` in the script): recognized extension
metadata of one BPMN element. -/
structure Meta where
  playwrightRefs : List String
  jiraKeys : List String
  tags : List String
  priority : String
  figmaUrl : String
  figmaNodeId : String
  figmaComponentKey : String
  variant : String
deriving DecidableEq

/-- The all-default bag the script initializes `el.meta` with. -/
def initialMeta : Meta :=
  { playwrightRefs := [], jiraKeys := [], tags := [], priority := ""
  , figmaUrl := "", figmaNodeId := "", figmaComponentKey := "", variant := "" }

/-- Array coercion `Array.isArray(v) ? v : [v]`. -/
def toChildArr : JsVal → List JsVal
  | .arr xs => xs
  | v => [v]

/-- The values of `Object.entries(ext)` (the keys of this level are unused
by the script).  For an array the values are its elements; for a string
they are its one-character strings. -/
def jsEntriesVals : JsVal → List JsVal
  | .obj kvs => kvs.map (·.2)
  | .arr xs => xs
  | .str s => s.data.map (fun c => .str (.mk [c]))

/-- Entries `Object.entries(ch)` for a value that passed the `typeof ch ===
'object'` test: an object yields its key/value pairs, an array its
index/element pairs. -/
def jsEntries : JsVal → List (String × JsVal)
  | .obj kvs => kvs
  | .arr xs => xs.enum.map (fun p => (toString p.1, p.2))
  | .str _ => []

/-- The test `typeof ch === 'object'` (true for objects and arrays). -/
def isObjLike : JsVal → Bool
  | .str _ => false
  | _ => true

/-- The sequence of (namespace-stripped key, value) metadata entries the
nested loops of `collectBpmnElements` feed to the `switch`, in visit
order: for every child value of `extensionElements`, for every truthy
member `ch` of its array form that is object-like, for every entry
`(kk, vv)` of `ch`, for every truthy member `x` of `vv`'s array form,
the pair `(kk.split(':').pop(), x)`. -/
def extMetaEntries (ext : JsVal) : List (String × JsVal) :=
  (jsEntriesVals ext).flatMap (fun v =>
    ((toChildArr v).filter truthy).flatMap (fun ch =>
      if isObjLike ch then
        (jsEntries ch).flatMap (fun kv =>
          ((toChildArr kv.2).filter truthy).map (fun x => (lastColonSeg kv.1, x)))
      else []))

/-- One switch step (`switch (key)`) of the extension loop, updating the bag. -/
def applyMetaEntry (m : Meta) (e : String × JsVal) : Meta :=
  match e.1 with
  | "playwrightRef" => { m with playwrightRefs := m.playwrightRefs ++ [strOf e.2] }
  | "jiraKeys" =>
      { m with jiraKeys := m.jiraKeys ++
          (((jsSplitOn (strOf e.2) (fun c => c = ',' ∨ c = '|')).map jsTrim).filter
            (fun s => s ≠ "")) }
  | "tags" =>
      { m with tags := m.tags ++
          (((jsSplitOn (strOf e.2) (fun c => c = ',' ∨ c = '|')).map jsTrim).filter
            (fun s => s ≠ "")) }
  | "priority" => { m with priority := strOf e.2 }
  | "figmaUrl" => { m with figmaUrl := strOf e.2 }
  | "figmaNodeId" => { m with figmaNodeId := strOf e.2 }
  | "figmaComponentKey" => { m with figmaComponentKey := strOf e.2 }
  | "variant" => { m with variant := strOf e.2 }
  | _ => m

/-- The bag produced by running the extension loops over `ext`. -/
def metaOfExt (ext : JsVal) : Meta :=
  (extMetaEntries ext).foldl applyMetaEntry initialMeta

/-- One extracted BPMN element (`el` in the script).  Under the parser
configuration `id` and `name` are always strings, but the script stores
the raw attribute values, so the embedding does too. -/
structure BpmnEl where
  id : JsVal
  type : String
  name : JsVal
  meta : Meta

/-- The lookup `node['bpmn:extensionElements'] || node['extensionElements']`,
followed by the `if (ext)` truthiness test. -/
def extOf (kvs : List (String × JsVal)) : Option JsVal :=
  match jsOr (lookupJs kvs "bpmn:extensionElements") (lookupJs kvs "extensionElements") with
  | some v => if truthy v then some v else none
  | none => none

/-- Materialize the element record pushed by `visit` for an id-carrying
object node with key/value list `kvs` reached under tag name `name`. -/
def mkEl (kvs : List (String × JsVal)) (name : String) : BpmnEl :=
  { id := (lookupJs kvs "@id").getD (.str "")
  , type := name
  , name := jsOrVal (lookupJs kvs "@name") (.str "")
  , meta :=
      match extOf kvs with
      | some ext => metaOfExt ext
      | none => initialMeta }

mutual

/-- The recursive `visit` of `collectBpmnElements`: arrays are visited
element-wise under the same tag name; an object is emitted when
`node['@id']` is truthy and then all its non-attribute children are
visited under their own keys; strings are ignored. -/
def collectVisit : JsVal → String → List BpmnEl
  | .str _, _ => []
  | .arr xs, name => collectVisitList xs name
  | .obj kvs, name =>
    (if truthyOpt (lookupJs kvs "@id") then [mkEl kvs name] else [])
      ++ collectVisitKvs kvs

/-- Array traversal `node.forEach(n => visit(n, name))`. -/
def collectVisitList : List JsVal → String → List BpmnEl
  | [], _ => []
  | x :: xs, name => collectVisit x name ++ collectVisitList xs name

/-- Child traversal `Object.entries(node).forEach(([k, v]) => { if (k.startsWith('@'))
return; visit(v, k); })`. -/
def collectVisitKvs : List (String × JsVal) → List BpmnEl
  | [] => []
  | (k, v) :: rest =>
    (if k.data.head? = some '@' then [] else collectVisit v k)
      ++ collectVisitKvs rest

end

/-- The entry point `collectBpmnElements(obj, tagName)` (the default tag name at the call
site in `main` is `""`). -/
def collectBpmnElements (obj : JsVal) (tagName : String) : List BpmnEl :=
  collectVisit obj tagName

mutual

/-- Specification-side pre-order node collection, following the spec's
words for the Node Extractor: "given the attributed tree and a type
predicate (default: has an `id` attribute), produce the ordered list of
ProcessNode, visiting the tree in pre-order (parent before children,
siblings in document order)".  For each selected node it records the
`@id` attribute value and the enclosing tag name; `p` is the predicate
applied to the node's `@id` attribute. -/
def preorderNodes (p : Option JsVal → Bool) : JsVal → String → List (JsVal × String)
  | .str _, _ => []
  | .arr xs, name => preorderNodesList p xs name
  | .obj kvs, name =>
    (if p (lookupJs kvs "@id")
     then [((lookupJs kvs "@id").getD (.str ""), name)]
     else [])
      ++ preorderNodesKvs p kvs

/-- Pre-order collection over the members of an array node. -/
def preorderNodesList (p : Option JsVal → Bool) : List JsVal → String → List (JsVal × String)
  | [], _ => []
  | x :: xs, name => preorderNodes p x name ++ preorderNodesList p xs name

/-- Pre-order collection over an object's children in document (key)
order, skipping attribute keys. -/
def preorderNodesKvs (p : Option JsVal → Bool) : List (String × JsVal) → List (JsVal × String)
  | [] => []
  | (k, v) :: rest =>
    (if k.data.head? = some '@' then [] else preorderNodes p v k)
      ++ preorderNodesKvs p rest

end

/-- The claim's default type predicate, read literally: the node carries
an `id` attribute. -/
def hasIdAttr (v : Option JsVal) : Bool := v.isSome

/-!
## Reference scanner (`scanTestsForBpmnTags`)

The scanner runs the sticky regex `/\[bpmn:([^\]]+)\]/g` over each test
file's text, recording for every match its identifier, the file, a line
number, and the first collected test title containing the whole marker.
-/

/-- One recorded reference occurrence (`{ file, line, title }` in the
script; the referenced identifier is the key of `hitsById`). -/
structure RefHit where
  file : String
  line : Nat
  title : String
deriving DecidableEq

/-- The characters of the literal part `[bpmn:` of the marker regex. -/
def bpmnMarkerPrefix : List Char := ['[', 'b', 'p', 'm', 'n', ':']

/-- Matching of `\[bpmn:([^\]]+)\]` at the start of `cs`: the literal
`[bpmn:`, then a non-empty maximal run of non-`]` characters, then `]`.
Returns the captured identifier and the total match length. -/
def matchMarkerAt (cs : List Char) : Option (String × Nat) :=
  if bpmnMarkerPrefix.isPrefixOf cs then
    let rest := cs.drop 6
    let idChars := rest.takeWhile (fun c => c ≠ ']')
    if idChars.isEmpty then none
    else
      match rest.drop idChars.length with
      | ']' :: _ => some (.mk idChars, 6 + idChars.length + 1)
      | _ => none
  else none

/-- The exec loop `while ((mt = re.exec(text)) !== null)`: scan left to right,
emitting `(identifier, start offset)` for each match and resuming after
its end.  The fuel argument is bounded by the remaining text length;
every iteration consumes at least one character (a match is at least
eight characters long), so the fuel never runs out. -/
def scanMarkerAux : Nat → List Char → Nat → List (String × Nat)
  | 0, _, _ => []
  | _ + 1, [], _ => []
  | fuel + 1, c :: rest, pos =>
    match matchMarkerAt (c :: rest) with
    | some (id, len) =>
      (id, pos) :: scanMarkerAux fuel ((c :: rest).drop len) (pos + len)
    | none => scanMarkerAux fuel rest (pos + 1)

/-- All marker matches of a text with their start offsets. -/
def scanMarkerOffsets (cs : List Char) : List (String × Nat) :=
  scanMarkerAux cs.length cs 0

/-- The call `text.lastIndexOf('\n', i)`: the largest index `j ≤ i` holding a
newline, if any. -/
def lastNewlineAtOrBefore (cs : List Char) (i : Nat) : Option Nat :=
  (List.range (i + 1)).foldl
    (fun acc j => if cs.getD j ' ' = '\n' then some j else acc) none

/-- The script's line computation for a match starting at `idx`:
`before === -1 ? 1 : text.substring(0, before).match(/\n/g).length + 1`
where `before = text.lastIndexOf('\n', idx)` — note that the newline at
position `before` itself is *not* counted by the `substring(0, before)`. -/
def jsLineOf (cs : List Char) (idx : Nat) : Nat :=
  match lastNewlineAtOrBefore cs idx with
  | none => 1
  | some b => ((cs.take b).count '\n') + 1

/-- Whether `needle` occurs as a contiguous substring of `hay`
(JavaScript `hay.includes(needle)`). -/
def containsSub (needle hay : List Char) : Bool :=
  hay.tails.any (fun t => needle.isPrefixOf t)

/-- The lookup `titles.find(t => t.includes(marker)) || ''`: the first collected
title containing the whole marker text. -/
def findTitleFor (titles : List String) (marker : String) : String :=
  (titles.find? (fun t => containsSub marker.data t.data)).getD ""

/-- The per-file body of `scanTestsForBpmnTags`: the ordered list of
`(identifier, RefHit)` pairs for every marker occurrence in `text`.
`titles` is the list the title heuristic collected from the same file
(via the regex `/(test|it|describe)\s*\(\s*(['"`])(.*?)\2/gi`); the
claims below do not depend on how it is computed, so it is a
parameter here. -/
def scanTextForBpmnTags (titles : List String) (file : String) (text : String) :
    List (String × RefHit) :=
  (scanMarkerOffsets text.data).map (fun m =>
    (m.1,
      { file := file
      , line := jsLineOf text.data m.2
      , title := findTitleFor titles ("[bpmn:" ++ m.1 ++ "]") }))

/-- The map `hitsById`: a JavaScript `Map` from identifier to the hits recorded
for it, modelled as an insertion-ordered association list with unique
keys. -/
abbrev HitsMap := List (String × List RefHit)

/-- One step of `const arr = hitsById.get(id) || []; arr.push(hit);
hitsById.set(id, arr)`: append to an existing key's group (keeping the
key's position) or append a new key at the end. -/
def insertHit (hm : HitsMap) (id : String) (h : RefHit) : HitsMap :=
  if hm.any (fun p => p.1 == id) then
    hm.map (fun p => if p.1 == id then (p.1, p.2 ++ [h]) else p)
  else hm ++ [(id, [h])]

/-- Build `hitsById` from the flat occurrence list. -/
def buildHitsById (hits : List (String × RefHit)) : HitsMap :=
  hits.foldl (fun hm ih => insertHit hm ih.1 ih.2) []

/-- The whole of `scanTestsForBpmnTags` over the enumerated test files (path and
text), with the per-file title heuristic passed as `titlesOf`. -/
def scanAllTests (titlesOf : String → List String)
    (files : List (String × String)) : HitsMap :=
  buildHitsById (files.flatMap (fun f => scanTextForBpmnTags (titlesOf f.2) f.1 f.2))

/-!
## Reconciler (`buildReport`)
-/

/-- One reconciled coverage row.  The script serializes the attached hit
group into the `tests` string; the embedding keeps both the group
(`tests`, the reconciler's attachment) and the serialized form
(`testsStr`). -/
structure Row where
  id : JsVal
  name : JsVal
  type : String
  priority : String
  tags : String
  jira : String
  playwrightRefs : String
  figma : String
  tests : List RefHit
  testsStr : String
  coverage : String

/-- One orphan entry `{ id, ...hit }`. -/
structure OrphanEntry where
  id : String
  file : String
  line : Nat
  title : String
deriving DecidableEq

/-- The reconciler's result `{ rows, orphans }`. -/
structure Report where
  rows : List Row
  orphans : List OrphanEntry

/-- SameValueZero comparison of an element id against a string key: a
`Map`/`Set` whose keys are strings matches `v` iff `v` is that string. -/
def isStrVal : JsVal → String → Bool
  | .str t, s => t == s
  | _, _ => false

/-- The group lookup `hitsById.get(el.id) || []`: the group stored under the element's id
(string keys only; a non-string id matches no key). -/
def findGroup (hm : HitsMap) (id : JsVal) : List RefHit :=
  match id with
  | .str s => ((hm.find? (fun p => p.1 == s)).map (·.2)).getD []
  | _ => []

/-- Type normalization `String(el.type || '').replace(/^bpmn:/, '')`. -/
def stripBpmnPrefix (t : String) : String :=
  if ("bpmn:".data).isPrefixOf t.data then .mk (t.data.drop 5) else t

/-- The figma field `el.meta.figmaUrl || (el.meta.figmaNodeId ? node prefix : '')`. -/
def figmaField (m : Meta) : String :=
  if m.figmaUrl ≠ "" then m.figmaUrl
  else if m.figmaNodeId ≠ "" then "node:" ++ m.figmaNodeId
  else ""

/-- The row `buildReport` produces for one element. -/
def mkRow (hm : HitsMap) (el : BpmnEl) : Row :=
  let tests := findGroup hm el.id
  { id := el.id
  , name := if truthy el.name then el.name else .str ""
  , type := stripBpmnPrefix el.type
  , priority := el.meta.priority
  , tags := String.intercalate ", " el.meta.tags
  , jira := String.intercalate ", " el.meta.jiraKeys
  , playwrightRefs := String.intercalate " | " el.meta.playwrightRefs
  , figma := figmaField el.meta
  , tests := tests
  , testsStr := String.intercalate " | "
      (tests.map (fun t => t.file ++ (if t.title ≠ "" then "#" ++ t.title else "")))
  , coverage := if tests.length > 0 then "Covered" else "Missing" }

/-- The reconciler `buildReport(bpmnEls, hitsById)`: one row per element, attaching the
hit group of its id; then one orphan per hit whose `hitsById` key is no
element's id, in key insertion order. -/
def buildReport (bpmnEls : List BpmnEl) (hitsById : HitsMap) : Report :=
  let rows := bpmnEls.map (mkRow hitsById)
  let orphanIds := (hitsById.map (·.1)).filter
    (fun id => !(bpmnEls.any (fun e => isStrVal e.id id)))
  let orphans := orphanIds.flatMap (fun id =>
    (((hitsById.find? (fun p => p.1 == id)).map (·.2)).getD []).map
      (fun h => { id := id, file := h.file, line := h.line, title := h.title }))
  { rows := rows, orphans := orphans }

/-!
## Tasks-only variant (`scripts/generate-bpmn-test-report.mjs`)

Its row building (step 4 of the main IIFE) derives the coverage status
`hasTests` from both the test-file markers and the `playwrightRef`
extension metadata.
-/

/-- One task from `extractTasks` (`{ id, name, tag }`). -/
structure MjsTask where
  id : String
  name : String
  tag : String
deriving DecidableEq

/-- One row of the Tasks-only report. -/
structure MjsRow where
  id : String
  name : String
  type : String
  hasTests : Bool
  testFiles : List String
  playwrightRefs : List String
deriving DecidableEq

/-- Lookup `m.get(k) || []` on a string-keyed map of string lists. -/
def lookupListD (m : List (String × List String)) (k : String) : List String :=
  ((m.find? (fun p => p.1 == k)).map (·.2)).getD []

/-- Insert `x` after every already-placed element not greater than it
(stable insertion). -/
def stableInsertBy (lt : α → α → Bool) (x : α) : List α → List α
  | [] => [x]
  | y :: ys => if lt x y then x :: y :: ys else y :: stableInsertBy lt x ys

/-- A stable sort, modelling JavaScript's stable `Array.prototype.sort`
with a comparator. -/
def stableSortBy (lt : α → α → Bool) (l : List α) : List α :=
  l.foldl (fun acc x => stableInsertBy lt x acc) []

/-- The `rows` computation of the Tasks-only script's main IIFE:
`hasTests: testFiles.length > 0 || playwrightRefs.length > 0`, then a
stable sort by id (`localeCompare` in the script; for the ASCII ids used
here this is codepoint order). -/
def mjsBuildRows (tasks : List MjsTask)
    (markers refsById : List (String × List String)) : List MjsRow :=
  stableSortBy (fun a b => decide (a.id < b.id))
    (tasks.map (fun t =>
      let testFiles := lookupListD markers t.id
      let playwrightRefs := lookupListD refsById t.id
      { id := t.id
      , name := t.name
      , type := t.tag
      , hasTests := testFiles.length > 0 || playwrightRefs.length > 0
      , testFiles := testFiles
      , playwrightRefs := playwrightRefs }))

/-!
## Entry point (`main` of the full variant)

The filesystem and process are modelled explicitly: `FsState` says
whether the BPMN document exists (with its text) and which test files
the glob enumerates; `RunOutcome` records the exit code, the output
files written, and whether extraction ran.  The XML parser and the title
heuristic are external collaborators passed as functions.
-/

/-- The filesystem as `main` observes it. -/
structure FsState where
  bpmnFile : Option String
  testFiles : List (String × String)

/-- What a run did: its exit code, the output files it wrote, and
whether `collectBpmnElements` was reached. -/
structure RunOutcome where
  exitCode : Nat
  filesWritten : List String
  extractionRan : Bool
deriving DecidableEq

/-- Property access `v[k]` on a possibly non-object value. -/
def jsGet (v : JsVal) (k : String) : Option JsVal :=
  match v with
  | .obj kvs => lookupJs kvs k
  | _ => none

/-- The six report files `main` writes, in write order. -/
def outputPaths : List String :=
  [ "bpmn-test-report.csv", "bpmn-test-report.html", "bpmn-test-report.json"
  , "reports/coverage/bpmn-test-report.csv", "reports/coverage/index.html"
  , "reports/coverage/bpmn-test-report.json" ]

/-- The entry point `main()`: if the BPMN file is absent, print a diagnostic and
`process.exit(1)` — before any parsing, extraction, scanning or output
writing; otherwise run the pipeline and write the six reports. -/
def mainRun (parse : String → JsVal) (titlesOf : String → List String)
    (fs : FsState) : RunOutcome :=
  match fs.bpmnFile with
  | none => { exitCode := 1, filesWritten := [], extractionRan := false }
  | some xml =>
    let bpmn := parse xml
    let defs := jsOrVal (jsGet bpmn "bpmn:definitions")
      (jsOrVal (jsGet bpmn "definitions") bpmn)
    let elements := collectBpmnElements defs ""
    let hitsById := scanAllTests titlesOf fs.testFiles
    let _report := buildReport elements hitsById
    { exitCode := 0, filesWritten := outputPaths, extractionRan := true }


/-!
## Claims
-/

/-- C5 (code bug in the scanner's line computation): in the artifact
text `"a\n[bpmn:X]"` the single marker starts at offset 2, and exactly one
newline occurs strictly before that offset, so the claimed 1-based line
number is 2 — but the scanner records `line = 1`: the script counts the
newlines of `text.substring(0, before)`, which excludes the newline at
position `before` itself, so every marker beyond the first line is
reported one line too early. -/
theorem scanLine_offByOne_secondLine :
    scanMarkerOffsets "a\n[bpmn:X]".data = [("X", 2)]
    ∧ ("a\n[bpmn:X]".data.take 2).count '\n' + 1 = 2
    ∧ (scanTextForBpmnTags [] "f" "a\n[bpmn:X]").map (fun p => p.2.line) = [1] := by
  refine ⟨by decide, by decide, by decide⟩

/-- C6: scanning a line containing the adjacent markers
`[bpmn:A][bpmn:B]` yields exactly two hits, identifier `A` then
identifier `B`, both with the same line number; grouping them into
`hitsById` keeps that order. -/
theorem scan_adjacent_markers :
    scanTextForBpmnTags [] "f" "x [bpmn:A][bpmn:B] y"
      = [("A", { file := "f", line := 1, title := "" }),
         ("B", { file := "f", line := 1, title := "" })]
    ∧ buildHitsById (scanTextForBpmnTags [] "f" "x [bpmn:A][bpmn:B] y")
      = [("A", [{ file := "f", line := 1, title := "" }]),
         ("B", [{ file := "f", line := 1, title := "" }])] := by
  refine ⟨by decide, by decide⟩

/-- C7: a `tags` (or `jiraKeys`) extension text is split on comma or
pipe, each segment trimmed, empty segments dropped, and the remaining
segments appended individually in order; in particular the text
`"a, b|c"` yields exactly `["a", "b", "c"]` through the full extraction
pipeline. -/
theorem tags_comma_pipe_split :
    (∀ (m : Meta) (x : JsVal),
      (applyMetaEntry m ("tags", x)).tags
        = m.tags ++ (((jsSplitOn (strOf x) (fun c => c = ',' ∨ c = '|')).map
            jsTrim).filter (fun s => s ≠ ""))
      ∧ (applyMetaEntry m ("jiraKeys", x)).jiraKeys
        = m.jiraKeys ++ (((jsSplitOn (strOf x) (fun c => c = ',' ∨ c = '|')).map
            jsTrim).filter (fun s => s ≠ "")))
    ∧ collectBpmnElements (.obj [("bpmn:task", .obj [("@id", .str "t1"),
        ("bpmn:extensionElements", .obj [("test:meta",
          .obj [("test:tags", .str "a, b|c")])])])]) ""
      = [{ id := .str "t1", type := "bpmn:task", name := .str ""
         , meta := { initialMeta with tags := ["a", "b", "c"] } }]
    ∧ collectBpmnElements (.obj [("bpmn:task", .obj [("@id", .str "t2"),
        ("bpmn:extensionElements", .obj [("test:meta",
          .obj [("test:jiraKeys", .str "a, b|c")])])])]) ""
      = [{ id := .str "t2", type := "bpmn:task", name := .str ""
         , meta := { initialMeta with jiraKeys := ["a", "b", "c"] } }] :=
  ⟨fun _ _ => ⟨rfl, rfl⟩, rfl, rfl⟩

/-- The extension keys the `switch` of `collectBpmnElements` recognizes. -/
def recognizedMetaKeys : List String :=
  ["playwrightRef", "jiraKeys", "tags", "priority", "figmaUrl",
   "figmaNodeId", "figmaComponentKey", "variant"]

/-- An unrecognized key falls through to the `default:` branch and leaves
the bag unchanged. -/
theorem applyMetaEntry_unrecognized (m : Meta) (e : String × JsVal)
    (h : e.1 ∉ recognizedMetaKeys) : applyMetaEntry m e = m := by
  unfold applyMetaEntry
  split <;> simp_all [recognizedMetaKeys]

/-- Folding the extension loop over entries with only unrecognized keys
changes nothing. -/
theorem foldl_applyMetaEntry_unrecognized (l : List (String × JsVal)) (m : Meta)
    (h : ∀ e ∈ l, e.1 ∉ recognizedMetaKeys) : l.foldl applyMetaEntry m = m := by
  induction l generalizing m with
  | nil => rfl
  | cons e t ih =>
    rw [List.foldl_cons, applyMetaEntry_unrecognized m e (h e (by simp))]
    exact ih m (fun x hx => h x (by simp [hx]))

/-- C8: metadata never aborts extraction — extension children with
only unrecognized keys contribute nothing (the bag stays all-default),
and a node with such an extension, or with no `extensionElements` at
all, still yields its ProcessNode with the default bag. -/
theorem unknownExtensionKeys_ignored :
    (∀ ext : JsVal, (∀ e ∈ extMetaEntries ext, e.1 ∉ recognizedMetaKeys) →
      metaOfExt ext = initialMeta)
    ∧ collectBpmnElements (.obj [("bpmn:task", .obj [("@id", .str "n1"),
        ("bpmn:extensionElements", .obj [("custom:unused", .str "ignored")])])]) ""
      = [{ id := .str "n1", type := "bpmn:task", name := .str ""
         , meta := initialMeta }]
    ∧ collectBpmnElements (.obj [("bpmn:task", .obj [("@id", .str "n2")])]) ""
      = [{ id := .str "n2", type := "bpmn:task", name := .str ""
         , meta := initialMeta }] :=
  ⟨fun _ h => foldl_applyMetaEntry_unrecognized _ _ h, rfl, rfl⟩

/-- Witness for C8 at the spec's own example, an extension holding only
`<custom:unused>ignored</custom:unused>` under a custom wrapper. -/
theorem unknownExtensionKeys_ignored_witness :
    (∀ e ∈ extMetaEntries
        (.obj [("custom:wrap", .obj [("custom:unused", .str "ignored")])]),
      e.1 ∉ recognizedMetaKeys)
    ∧ metaOfExt (.obj [("custom:wrap", .obj [("custom:unused", .str "ignored")])])
      = initialMeta :=
  ⟨by decide, unknownExtensionKeys_ignored.1 _ (by decide)⟩

/-- C9: when the BPMN document file is absent, the run exits with a
non-zero code, runs no extraction, and writes no output files. -/
theorem missingBpmn_aborts (parse : String → JsVal)
    (titlesOf : String → List String) (fs : FsState)
    (h : fs.bpmnFile = none) :
    (mainRun parse titlesOf fs).exitCode ≠ 0
    ∧ (mainRun parse titlesOf fs).filesWritten = []
    ∧ (mainRun parse titlesOf fs).extractionRan = false := by
  simp [mainRun, h]

/-- Witness for C9 on the empty filesystem. -/
theorem missingBpmn_aborts_witness :
    (FsState.mk none []).bpmnFile = none
    ∧ ((mainRun (fun _ => .str "") (fun _ => []) (FsState.mk none [])).exitCode ≠ 0
      ∧ (mainRun (fun _ => .str "") (fun _ => []) (FsState.mk none [])).filesWritten = []
      ∧ (mainRun (fun _ => .str "") (fun _ => []) (FsState.mk none [])).extractionRan
        = false) :=
  ⟨rfl, missingBpmn_aborts _ _ _ rfl⟩

/-- Membership is preserved by stable insertion. -/
theorem mem_stableInsertBy (lt : α → α → Bool) (x a : α) (l : List α) :
    a ∈ stableInsertBy lt x l ↔ a = x ∨ a ∈ l := by
  induction l with
  | nil => simp [stableInsertBy]
  | cons y ys ih =>
    simp only [stableInsertBy]
    split
    · simp [List.mem_cons]
    · simp only [List.mem_cons, ih]
      tauto

/-- Membership is preserved by the stable sort. -/
theorem mem_stableSortBy (lt : α → α → Bool) (a : α) (l : List α) :
    a ∈ stableSortBy lt l ↔ a ∈ l := by
  have key : ∀ (l acc : List α),
      (a ∈ l.foldl (fun acc x => stableInsertBy lt x acc) acc
        ↔ a ∈ acc ∨ a ∈ l) := by
    intro l
    induction l with
    | nil => simp
    | cons x xs ih =>
      intro acc
      rw [List.foldl_cons, ih, mem_stableInsertBy]
      simp only [List.mem_cons]
      tauto
  rw [stableSortBy, key]
  simp

/-- C2 (amended): in the main reconciler every row's status is
`Covered` exactly when its attached hit group is non-empty; in the
Tasks-only script, however, `hasTests` is true exactly when the marker
file list *or* the `playwrightRef` metadata list is non-empty. -/
theorem coverage_iff_hits :
    (∀ (els : List BpmnEl) (hm : HitsMap) (r : Row),
      r ∈ (buildReport els hm).rows → (r.coverage = "Covered" ↔ r.tests ≠ []))
    ∧ (∀ (tasks : List MjsTask) (markers refsById : List (String × List String))
        (r : MjsRow), r ∈ mjsBuildRows tasks markers refsById →
        (r.hasTests = true ↔ (r.testFiles ≠ [] ∨ r.playwrightRefs ≠ []))) := by
  constructor
  · intro els hm r hr
    simp only [buildReport] at hr
    obtain ⟨el, -, rfl⟩ := List.mem_map.mp hr
    show (if 0 < (findGroup hm el.id).length then "Covered" else "Missing") = "Covered"
      ↔ findGroup hm el.id ≠ []
    cases h : findGroup hm el.id <;> simp [h]
  · intro tasks markers refsById r hr
    rw [mjsBuildRows, mem_stableSortBy] at hr
    obtain ⟨t, -, rfl⟩ := List.mem_map.mp hr
    show ((lookupListD markers t.id).length > 0
        || (lookupListD refsById t.id).length > 0) = true
      ↔ lookupListD markers t.id ≠ [] ∨ lookupListD refsById t.id ≠ []
    cases lookupListD markers t.id <;> cases lookupListD refsById t.id <;> simp

/-- C2 counterexample to the claim as stated: a task with no marker
hits at all (`testFiles = []`) but one `playwrightRef` is reported
covered (`hasTests = true`) by the Tasks-only script — the playwrightRef
metadata does affect the derived status, and the status is not `Missing`
although the attached hit list is empty. -/
theorem mjs_playwrightRef_affects_status :
    mjsBuildRows [{ id := "T", name := "", tag := "bpmn:userTask" }]
      [("T", [])] [("T", ["tests/foo.spec.ts"])]
      = [{ id := "T", name := "", type := "bpmn:userTask", hasTests := true
         , testFiles := [], playwrightRefs := ["tests/foo.spec.ts"] }] := by
  decide

/-- A concrete element used by several witnesses. -/
def elA : BpmnEl := { id := .str "A", type := "bpmn:task", name := .str "", meta := initialMeta }

/-- A concrete reference hit used by several witnesses. -/
def hit1 : RefHit := { file := "tests/a.spec.ts", line := 4, title := "t" }

/-- Witness for C2 on a covered singleton report. -/
theorem coverage_iff_hits_witness :
    mkRow [("A", [hit1])] elA ∈ (buildReport [elA] [("A", [hit1])]).rows
    ∧ ((mkRow [("A", [hit1])] elA).coverage = "Covered"
        ↔ (mkRow [("A", [hit1])] elA).tests ≠ []) :=
  ⟨List.mem_singleton.mpr rfl,
   coverage_iff_hits.1 [elA] [("A", [hit1])] (mkRow [("A", [hit1])] elA)
     (List.mem_singleton.mpr rfl)⟩

/-- A placeholder element (only a `List.getD` default). -/
def dummyEl : BpmnEl := { id := .str "", type := "", name := .str "", meta := initialMeta }

/-- A placeholder row (only a `List.getD` default). -/
def dummyRow : Row := mkRow [] dummyEl

/-- C10: the reconciler emits one row per extracted element — no
deduplication of ids — and attaches to each row the *entire* hit group
stored under that row's element id; hence two elements sharing an id
both appear, each carrying the full group, and a single hit then occurs
in more than one row. -/
theorem duplicateIds_bothAppear (els : List BpmnEl) (hm : HitsMap) :
    (buildReport els hm).rows.length = els.length
    ∧ ∀ i, i < els.length →
      ((buildReport els hm).rows.getD i dummyRow).tests
        = findGroup hm ((els.getD i dummyEl).id) := by
  refine ⟨by simp [buildReport], ?_⟩
  intro i hi
  simp only [buildReport]
  rw [List.getD_eq_getElem?_getD, List.getD_eq_getElem?_getD, List.getElem?_map]
  rw [List.getElem?_eq_getElem hi]
  rfl

/-- Witness for C10: two elements with the same id `"D"` yield two rows,
and the single recorded hit is attached to both of them. -/
theorem duplicateIds_bothAppear_witness :
    ((buildReport [⟨.str "D", "bpmn:task", .str "", initialMeta⟩,
        ⟨.str "D", "bpmn:task", .str "", initialMeta⟩]
        [("D", [hit1])]).rows.getD 0 dummyRow).tests = [hit1]
    ∧ ((buildReport [⟨.str "D", "bpmn:task", .str "", initialMeta⟩,
        ⟨.str "D", "bpmn:task", .str "", initialMeta⟩]
        [("D", [hit1])]).rows.getD 1 dummyRow).tests = [hit1]
    ∧ (buildReport [⟨.str "D", "bpmn:task", .str "", initialMeta⟩,
        ⟨.str "D", "bpmn:task", .str "", initialMeta⟩]
        [("D", [hit1])]).rows.length = 2 :=
  ⟨((duplicateIds_bothAppear _ _).2 0 (by decide)).trans rfl,
   ((duplicateIds_bothAppear _ _).2 1 (by decide)).trans rfl,
   ((duplicateIds_bothAppear _ _).1).trans rfl⟩

/-- With unique keys (a `Map` guarantee), `find?` returns the stored
entry. -/
theorem find?_eq_of_mem_nodup (hm : HitsMap) (k : String) (g : List RefHit)
    (hnd : (hm.map (·.1)).Nodup) (hmem : (k, g) ∈ hm) :
    hm.find? (fun p => p.1 == k) = some (k, g) := by
  induction hm with
  | nil => cases hmem
  | cons e t ih =>
    rw [List.find?_cons_eq_some]
    rcases List.mem_cons.mp hmem with h | h
    · subst h
      exact Or.inl ⟨by simp, rfl⟩
    · have hbeq : (e.1 == k) = false := by
        rw [beq_eq_false_iff_ne]
        intro he
        have hmemk : k ∈ t.map (·.1) := List.mem_map.mpr ⟨(k, g), h, rfl⟩
        exact (List.nodup_cons.mp hnd).1
          (by show e.1 ∈ _; rw [he]; exact hmemk)
      refine Or.inr ⟨by simp [hbeq], ?_⟩
      exact ih (List.nodup_cons.mp hnd).2 h

/-- Filtering the reconciler's rows by id is filtering the elements by
id (each row keeps its element's id). -/
theorem rows_filter_key (els : List BpmnEl) (hm : HitsMap) (k : String) :
    (buildReport els hm).rows.filter (fun r => isStrVal r.id k)
      = (els.filter (fun e => isStrVal e.id k)).map (mkRow hm) := by
  show (els.map (mkRow hm)).filter (fun r => isStrVal r.id k) = _
  rw [List.filter_map]
  rfl

/-- Filtering a flatMap whose generator tags every entry with its source
id selects exactly the segments of the matching ids. -/
theorem orphan_flatMap_filter (gen : String → List OrphanEntry)
    (hgen : ∀ id o, o ∈ gen id → o.id = id) (ids : List String) (k : String) :
    (ids.flatMap gen).filter (fun o => o.id == k)
      = (ids.filter (fun id => id == k)).flatMap gen := by
  induction ids with
  | nil => rfl
  | cons i t ih =>
    rw [List.flatMap_cons, List.filter_append, ih, List.filter_cons]
    cases hik : (i == k) with
    | false =>
      have hseg : (gen i).filter (fun o => o.id == k) = [] := by
        rw [List.filter_eq_nil_iff]
        intro o ho
        rw [hgen i o ho]
        simp [hik]
      simp [hseg, hik]
    | true =>
      have hseg : (gen i).filter (fun o => o.id == k) = gen i := by
        rw [List.filter_eq_self]
        intro o ho
        rw [hgen i o ho]
        exact hik
      simp [hseg, hik]

/-- In a duplicate-free list, filtering for one contained element yields
that element alone. -/
theorem filter_beq_of_nodup (l : List String) (k : String)
    (hnd : l.Nodup) (hk : k ∈ l) : l.filter (fun x => x == k) = [k] := by
  induction l with
  | nil => cases hk
  | cons a t ih =>
    by_cases hak : a = k
    · subst hak
      rw [List.filter_cons]
      have hz : t.filter (fun x => x == a) = [] := by
        rw [List.filter_eq_nil_iff]
        intro x hx hxa
        exact (List.nodup_cons.mp hnd).1 ((beq_iff_eq.mp hxa) ▸ hx)
      simp [hz]
    · have hk2 : k ∈ t := by
        rcases List.mem_cons.mp hk with h | h
        · exact absurd h.symm hak
        · exact h
      have hbeq : (a == k) = false := beq_eq_false_iff_ne.mpr hak
      rw [List.filter_cons]
      simp only [hbeq, Bool.false_eq_true, if_false]
      exact ih (List.nodup_cons.mp hnd).2 hk2

/-- The orphan entries carrying key `k`: the whole group of `k` when no
element's id matches `k`, nothing when one does. -/
theorem buildReport_orphans_filter (els : List BpmnEl) (hm : HitsMap)
    (k : String) (g : List RefHit)
    (hnd : (hm.map (·.1)).Nodup) (hmem : (k, g) ∈ hm) :
    (buildReport els hm).orphans.filter (fun o => o.id == k)
      = if els.any (fun e => isStrVal e.id k) then []
        else g.map (fun h =>
          ({ id := k, file := h.file, line := h.line, title := h.title } : OrphanEntry)) := by
  have hkmem : k ∈ hm.map (·.1) := List.mem_map.mpr ⟨(k, g), hmem, rfl⟩
  show (((hm.map (·.1)).filter (fun id => !(els.any (fun e => isStrVal e.id id)))).flatMap
      (fun id => (((hm.find? (fun p => p.1 == id)).map (·.2)).getD []).map
        (fun h => ({ id := id, file := h.file, line := h.line, title := h.title } :
          OrphanEntry)))).filter (fun o => o.id == k) = _
  rw [orphan_flatMap_filter _ (fun id o ho => by
    obtain ⟨h, -, rfl⟩ := List.mem_map.mp ho
    rfl)]
  rw [List.filter_filter]
  have hcomm : (fun (a : String) => a == k && !els.any (fun e => isStrVal e.id a))
      = (fun a => (!els.any (fun e => isStrVal e.id a)) && a == k) := by
    funext a
    exact Bool.and_comm _ _
  rw [hcomm, ← List.filter_filter, filter_beq_of_nodup _ _ hnd hkmem]
  rw [List.filter_cons, List.filter_nil]
  cases hcov : els.any (fun e => isStrVal e.id k) with
  | true => simp [hcov]
  | false =>
    simp only [hcov, Bool.not_false, if_true, List.flatMap_cons, List.flatMap_nil,
      List.append_nil, Bool.false_eq_true, if_false]
    rw [find?_eq_of_mem_nodup hm k g hnd hmem]
    rfl

/-- C1 (amended): provided the extracted elements carry pairwise
distinct ids (at most one element matches any hit key, as the spec's
node-uniqueness invariant assumes), every ReferenceHit lands in exactly
one place: if some element's id equals the hit group's key, exactly one
row carries that id, its attached list is the whole group, and no orphan
carries the key; otherwise no row carries the key and the orphan list
holds exactly that group, in order.  (When duplicate ids occur the code
attaches the group to every duplicate row, so a hit can appear in more
than one place; see the counterexample.) -/
theorem hit_partition (els : List BpmnEl) (hm : HitsMap) (k : String)
    (g : List RefHit)
    (hnd : (hm.map (·.1)).Nodup)
    (hids : els.countP (fun e => isStrVal e.id k) ≤ 1)
    (hmem : (k, g) ∈ hm) :
    (els.any (fun e => isStrVal e.id k) = true →
      ((buildReport els hm).rows.filter (fun r => isStrVal r.id k)).map
          (fun r => r.tests) = [g]
      ∧ (buildReport els hm).orphans.filter (fun o => o.id == k) = [])
    ∧ (els.any (fun e => isStrVal e.id k) = false →
      (buildReport els hm).rows.filter (fun r => isStrVal r.id k) = []
      ∧ (buildReport els hm).orphans.filter (fun o => o.id == k)
        = g.map (fun h =>
            ({ id := k, file := h.file, line := h.line, title := h.title } :
              OrphanEntry))) := by
  constructor
  · intro hcov
    constructor
    · rw [rows_filter_key]
      have hlen : (els.filter (fun e => isStrVal e.id k)).length = 1 := by
        have h1 : 0 < (els.filter (fun e => isStrVal e.id k)).length := by
          obtain ⟨e, he, hpe⟩ := List.any_eq_true.mp hcov
          exact List.length_pos_of_mem (List.mem_filter.mpr ⟨he, hpe⟩)
        have h2 : (els.filter (fun e => isStrVal e.id k)).length ≤ 1 := by
          rw [← List.countP_eq_length_filter]
          exact hids
        omega
      obtain ⟨e, he⟩ := List.length_eq_one.mp hlen
      rw [he]
      have hpe : isStrVal e.id k = true := by
        have hmem1 : e ∈ els.filter (fun e => isStrVal e.id k) := by
          rw [he]
          exact List.mem_singleton_self e
        exact (List.mem_filter.mp hmem1).2
      obtain ⟨s, hs⟩ : ∃ s, e.id = JsVal.str s := by
        cases hid : e.id with
        | str s => exact ⟨s, rfl⟩
        | arr xs => rw [hid] at hpe; simp [isStrVal] at hpe
        | obj kvs => rw [hid] at hpe; simp [isStrVal] at hpe
      have hsk : s = k := by
        rw [hs] at hpe
        exact beq_iff_eq.mp hpe
      show [(mkRow hm e).tests] = [g]
      congr 1
      show findGroup hm e.id = g
      rw [hs, hsk]
      show ((hm.find? (fun p => p.1 == k)).map (·.2)).getD [] = g
      rw [find?_eq_of_mem_nodup hm k g hnd hmem]
      rfl
    · rw [buildReport_orphans_filter els hm k g hnd hmem, if_pos hcov]
  · intro hnc
    constructor
    · rw [rows_filter_key]
      have hz : els.filter (fun e => isStrVal e.id k) = [] := by
        rw [List.filter_eq_nil_iff]
        intro e he hpe
        have : els.any (fun e => isStrVal e.id k) = true :=
          List.any_eq_true.mpr ⟨e, he, hpe⟩
        rw [hnc] at this
        cases this
      rw [hz]
      rfl
    · rw [buildReport_orphans_filter els hm k g hnd hmem,
        if_neg (by rw [hnc]; exact Bool.false_ne_true)]

/-- C1 counterexample to the claim as stated: two extracted elements
share the id `"A"`; the single recorded hit is then attached to the hit
lists of *two* coverage rows whose ids equal its referencedId (and to no
orphan) — it does not appear in exactly one place. -/
theorem hit_in_two_rows :
    ((buildReport [⟨.str "A", "bpmn:task", .str "", initialMeta⟩,
        ⟨.str "A", "bpmn:serviceTask", .str "", initialMeta⟩]
        [("A", [hit1])]).rows.map (fun r => (r.id, r.tests)))
      = [(.str "A", [hit1]), (.str "A", [hit1])]
    ∧ (buildReport [⟨.str "A", "bpmn:task", .str "", initialMeta⟩,
        ⟨.str "A", "bpmn:serviceTask", .str "", initialMeta⟩]
        [("A", [hit1])]).orphans = [] :=
  ⟨rfl, rfl⟩

/-- Witness for C1 on a covered singleton report. -/
theorem hit_partition_witness :
    ((buildReport [elA] [("A", [hit1])]).rows.filter
        (fun r => isStrVal r.id "A")).map (fun r => r.tests) = [[hit1]]
    ∧ (buildReport [elA] [("A", [hit1])]).orphans.filter
        (fun o => o.id == "A") = [] :=
  (hit_partition [elA] [("A", [hit1])] "A" [hit1]
    (by decide) (by decide) (by decide)).1 rfl

/-- C3: every `hitsById` key matching no element id contributes one
OrphanEntry per hit of its group, in the group's order; in particular
zero elements and one hit with id `"X"` reconcile to `rows = []` and
exactly that one orphan. -/
theorem orphans_per_unmatched_id :
    (∀ (els : List BpmnEl) (hm : HitsMap) (k : String) (g : List RefHit),
      (hm.map (·.1)).Nodup → (k, g) ∈ hm →
      els.any (fun e => isStrVal e.id k) = false →
      (buildReport els hm).orphans.filter (fun o => o.id == k)
        = g.map (fun h =>
            ({ id := k, file := h.file, line := h.line, title := h.title } :
              OrphanEntry)))
    ∧ (buildReport [] [("X", [{ file := "f", line := 3, title := "" }])]).rows = []
    ∧ (buildReport [] [("X", [{ file := "f", line := 3, title := "" }])]).orphans
      = [{ id := "X", file := "f", line := 3, title := "" }] := by
  refine ⟨?_, rfl, rfl⟩
  intro els hm k g hnd hmem hnc
  rw [buildReport_orphans_filter els hm k g hnd hmem,
    if_neg (by rw [hnc]; exact Bool.false_ne_true)]

/-- Witness for C3 with one unmatched hit group. -/
theorem orphans_per_unmatched_id_witness :
    (buildReport [] [("X", [hit1])]).orphans.filter (fun o => o.id == "X")
      = [hit1].map (fun h =>
          ({ id := "X", file := h.file, line := h.line, title := h.title } :
            OrphanEntry)) :=
  orphans_per_unmatched_id.1 [] [("X", [hit1])] "X" [hit1]
    (by decide) (by decide) rfl

/-- Every JavaScript value has positive size (for the fuel induction). -/
theorem one_le_sizeOf_jsVal (v : JsVal) : 1 ≤ sizeOf v := by
  cases v <;> simp_arith

/-- Every list has positive size (for the fuel induction). -/
theorem one_le_sizeOf_list [SizeOf α] (l : List α) : 1 ≤ sizeOf l := by
  cases l <;> simp_arith

/-- Simultaneous size-bounded induction: the extractor's visit emits, in
order, exactly one element per pre-order node with a truthy `@id`, with
that id value and the enclosing tag name. -/
theorem collect_preorder_aux : ∀ N : Nat,
    (∀ v : JsVal, sizeOf v ≤ N → ∀ name : String,
      (collectVisit v name).map (fun e => (e.id, e.type))
        = preorderNodes truthyOpt v name)
    ∧ (∀ xs : List JsVal, sizeOf xs ≤ N → ∀ name : String,
      (collectVisitList xs name).map (fun e => (e.id, e.type))
        = preorderNodesList truthyOpt xs name)
    ∧ (∀ kvs : List (String × JsVal), sizeOf kvs ≤ N →
      (collectVisitKvs kvs).map (fun e => (e.id, e.type))
        = preorderNodesKvs truthyOpt kvs) := by
  intro N
  induction N with
  | zero =>
    refine ⟨?_, ?_, ?_⟩
    · intro v h
      exact absurd h (by have := one_le_sizeOf_jsVal v; omega)
    · intro xs h
      exact absurd h (by have := one_le_sizeOf_list xs; omega)
    · intro kvs h
      exact absurd h (by have := one_le_sizeOf_list kvs; omega)
  | succ N ih =>
    obtain ⟨ihv, ihl, ihk⟩ := ih
    refine ⟨?_, ?_, ?_⟩
    · intro v h name
      cases v with
      | str s => rfl
      | arr xs =>
        show (collectVisitList xs name).map (fun e => (e.id, e.type))
          = preorderNodesList truthyOpt xs name
        exact ihl xs (by simp at h; omega) name
      | obj kvs =>
        show ((if truthyOpt (lookupJs kvs "@id") then [mkEl kvs name] else [])
            ++ collectVisitKvs kvs).map (fun e => (e.id, e.type))
          = (if truthyOpt (lookupJs kvs "@id")
             then [((lookupJs kvs "@id").getD (.str ""), name)] else [])
            ++ preorderNodesKvs truthyOpt kvs
        rw [List.map_append, ihk kvs (by simp at h; omega)]
        congr 1
        cases truthyOpt (lookupJs kvs "@id") <;> rfl
    · intro xs h name
      cases xs with
      | nil => rfl
      | cons x xs2 =>
        show (collectVisit x name ++ collectVisitList xs2 name).map
            (fun e => (e.id, e.type))
          = preorderNodes truthyOpt x name ++ preorderNodesList truthyOpt xs2 name
        rw [List.map_append, ihv x (by simp at h; omega) name,
          ihl xs2 (by simp at h; omega) name]
    · intro kvs h
      cases kvs with
      | nil => rfl
      | cons kv rest =>
        obtain ⟨k, v⟩ := kv
        show ((if k.data.head? = some '@' then [] else collectVisit v k)
            ++ collectVisitKvs rest).map (fun e => (e.id, e.type))
          = (if k.data.head? = some '@' then [] else preorderNodes truthyOpt v k)
            ++ preorderNodesKvs truthyOpt rest
        rw [List.map_append, ihk rest (by simp at h; omega)]
        congr 1
        by_cases hk : k.data.head? = some '@'
        · rw [if_pos hk, if_pos hk]
          rfl
        · rw [if_neg hk, if_neg hk]
          exact ihv v (by simp at h; omega) k

/-- C4 (amended): for every attributed tree the extractor emits, in
pre-order (parent before children, siblings in document order), exactly
one ProcessNode per tree node whose `@id` attribute is *truthy* (for the
string attribute values the parser produces: present and non-empty),
recording that id and the enclosing tag name. -/
theorem extractor_preorder (t : JsVal) (tagName : String) :
    (collectBpmnElements t tagName).map (fun e => (e.id, e.type))
      = preorderNodes truthyOpt t tagName :=
  (collect_preorder_aux (sizeOf t)).1 t le_rfl tagName

/-- C4 counterexample to the claim as stated: a node *carrying* an
`id` attribute whose value is the empty string is selected by the
claim's predicate ("has an `id` attribute") but the extractor, testing
JavaScript truthiness of `node['@id']`, emits nothing for it. -/
theorem emptyId_not_extracted :
    collectBpmnElements (.obj [("@id", .str "")]) "task" = []
    ∧ preorderNodes hasIdAttr (.obj [("@id", .str "")]) "task"
      = [(.str "", "task")] :=
  ⟨rfl, rfl⟩
